import Mathlib

/-!
Verification of the offline asset cache manager (service worker) of the
LearningJournal site: a shallow embedding of `src/service-worker.js`.

The embedding models:
* the cache storage (`CacheStorage`) as an association list of named
  buckets, each bucket an association list from request key (URL) to a
  stored `Response`;
* the network capability as a function `String → Option Response`
  (`none` = the fetch rejects);
* the three lifecycle handlers (`install`, `activate`, `fetch`) as pure
  state transformers over the storage, with the activate handler also
  producing the trace of observable actions in the order the JavaScript
  engine performs them.
-/

set_option autoImplicit false

namespace SW

/-- An HTTP response as observable through the Cache API: status code and
body bytes. `Response.clone()` yields an observably identical value, so a
clone is the value itself in this model. -/
structure Response where
  status : Nat
  body   : String
deriving DecidableEq, Repr

/-- Platform predicate `Response.ok`: the status is in the 200–299 range. -/
def Response.ok (r : Response) : Bool :=
  200 ≤ r.status && r.status < 300

/-- A cache bucket: association list from request key (the request URL) to
the stored response. `Cache.put` overwrites, so at most the first entry for
a key is observable. -/
abbrev Bucket := List (String × Response)

/-- The cache storage: association list from bucket name to bucket, in
creation order (the order `caches.match` and `caches.keys` traverse). -/
abbrev CacheStorage := List (String × Bucket)

/-- The network fetch capability: a response, or `none` when the fetch
rejects (network failure). -/
abbrev Network := String → Option Response

/-- `src/service-worker.js` line 1: the current version's bucket name. -/
def CACHE_NAME : String := "learningpwa-cache-v3"

/-- `src/service-worker.js` lines 2–19: the asset manifest. -/
def urlsToCache : List String :=
  [ "/",
    "/index.html",
    "/about.html",
    "/journal.html",
    "/projects.html",
    "/css/style.css",
    "/js/main.js",
    "/js/script.js",
    "/js/storage.js",
    "/js/browser.js",
    "/js/thirdparty.js",
    "/images/icon-192.png",
    "/images/icon-512.png",
    "/images/logo.png",
    "/images/profile.jpeg",
    "/manifest.json" ]

/-- `cache.match(key)` within one bucket: the first entry for the key. -/
def bucketMatch (b : Bucket) (key : String) : Option Response :=
  (b.find? (fun e => e.1 == key)).map Prod.snd

/-- `cache.put(key, r)`: overwrite any prior entry for the key. -/
def bucketPut (b : Bucket) (key : String) (r : Response) : Bucket :=
  b.filter (fun e => !(e.1 == key)) ++ [(key, r)]

/-- `caches.keys()`: the names of all existing buckets, in order. -/
def cachesKeys (s : CacheStorage) : List String :=
  s.map Prod.fst

/-- `caches.open(name)`: create the bucket (empty, at the end) if absent. -/
def cachesOpen (s : CacheStorage) (name : String) : CacheStorage :=
  if (cachesKeys s).contains name then s else s ++ [(name, [])]

/-- The bucket registered under `name` (empty if absent). -/
def storageBucket (s : CacheStorage) (name : String) : Bucket :=
  ((s.find? (fun b => b.1 == name)).map Prod.snd).getD []

/-- `caches.open(name).then(cache => cache.put(key, r))`: open the bucket,
then overwrite the entry for `key` in it. -/
def storagePut (s : CacheStorage) (name key : String) (r : Response) : CacheStorage :=
  (cachesOpen s name).map (fun b => if b.1 == name then (b.1, bucketPut b.2 key r) else b)

/-- `caches.match(key)`: search every bucket in order, first hit wins. -/
def cachesMatch (s : CacheStorage) (key : String) : Option Response :=
  s.findSome? (fun b => bucketMatch b.2 key)

/-- `caches.delete(name)`: remove the bucket registered under `name`. -/
def cachesDelete (s : CacheStorage) (name : String) : CacheStorage :=
  s.filter (fun b => !(b.1 == name))

/-- `hasPrefixChars s p`: the character list `p` is a prefix of `s`. -/
def hasPrefixChars : List Char → List Char → Bool
  | _, [] => true
  | [], _ :: _ => false
  | c :: s, d :: p => c == d && hasPrefixChars s p

/-- `hasSubChars s p`: the character list `p` occurs contiguously in `s`. -/
def hasSubChars : List Char → List Char → Bool
  | [], p => p.isEmpty
  | c :: s, p => hasPrefixChars (c :: s) p || hasSubChars s p

/-- JavaScript `url.includes(pat)`: substring containment. -/
def strIncludes (url pat : String) : Bool :=
  hasSubChars url.data pat.data

/-- The fetch phase of `cache.addAll(urls)` (line 24): fetch every URL; the
whole operation rejects (`none`) if any single fetch rejects or any
response is not ok — in that case the batch commit never runs and nothing
is added to the bucket. -/
def fetchAll (network : Network) : List String → Option (List Response)
  | [] => some []
  | u :: us =>
    match network u with
    | none => none
    | some r => if r.ok then (fetchAll network us).map (r :: ·) else none

/-- The batch-commit phase of `cache.addAll`: store every fetched pair. -/
def putAll (name : String) : CacheStorage → List (String × Response) → CacheStorage
  | s, [] => s
  | s, (k, r) :: rest => putAll name (storagePut s name k r) rest

/-- `src/service-worker.js` lines 21–27, the install handler:
`caches.open(CACHE_NAME).then(cache => cache.addAll(urlsToCache))`.
Returns the resulting storage and whether the install succeeded; on
failure the opened bucket exists but `addAll` has committed nothing. -/
def installHandler (network : Network) (s : CacheStorage) : CacheStorage × Bool :=
  let s' := cachesOpen s CACHE_NAME
  match fetchAll network urlsToCache with
  | none => (s', false)
  | some resps => (putAll CACHE_NAME s' (urlsToCache.zip resps), true)

/-- An observable action of the activate handler. -/
inductive Event where
  | deleteBucket (name : String)
  | claimClients
deriving DecidableEq, Repr

/-- `src/service-worker.js` lines 29–42, the activate handler.
The listener body runs synchronously: `caches.keys().then(...)` only
registers a continuation (a promise `.then` callback runs in a microtask
after the listener body returns), and `self.clients.claim()` on line 41 is
invoked directly by the listener body. Hence in the action trace the claim
comes first and the deletions of the stale buckets (every enumerated name
different from `CACHE_NAME`, line 34) follow it. -/
def activateHandler (s : CacheStorage) : CacheStorage × List Event :=
  let stale := (cachesKeys s).filter (fun n => !(n == CACHE_NAME))
  (stale.foldl cachesDelete s,
    Event.claimClients :: stale.map Event.deleteBucket)

/-- Whether an activate-trace action is a bucket deletion. -/
def isDeleteEvent : Event → Bool
  | Event.deleteBucket _ => true
  | Event.claimClients => false

/-- Whether an activate-trace action is the `clients.claim()` call. -/
def isClaimEvent : Event → Bool
  | Event.deleteBucket _ => false
  | Event.claimClients => true

/-- Every deletion in the trace occurs strictly before every claim. -/
def deletesBeforeClaim (tr : List Event) : Prop :=
  ∀ i j : Fin tr.length,
    isDeleteEvent (tr.get i) = true → isClaimEvent (tr.get j) = true → (i : ℕ) < (j : ℕ)

/-- The outcome of one run of the fetch handler: the response delivered to
the page, the resulting storage, and the network requests issued. -/
structure FetchResult where
  response : Option Response
  storage  : CacheStorage
  netCalls : List String
deriving DecidableEq, Repr

/-- `src/service-worker.js` lines 47–61, the network-first branch: fetch;
on success clone the response, write the clone into the `CACHE_NAME`
bucket under the request's key and return the response; on rejection fall
back to `caches.match`. -/
def networkFirst (network : Network) (s : CacheStorage) (req : String) : FetchResult :=
  match network req with
  | some resp =>
      { response := some resp
        storage  := storagePut s CACHE_NAME req resp
        netCalls := [req] }
  | none =>
      { response := cachesMatch s req
        storage  := s
        netCalls := [req] }

/-- `src/service-worker.js` lines 64–69, the cache-first branch:
`caches.match(request).then(response => response || fetch(request))`. -/
def cacheFirst (network : Network) (s : CacheStorage) (req : String) : FetchResult :=
  match cachesMatch s req with
  | some resp => { response := some resp, storage := s, netCalls := [] }
  | none => { response := network req, storage := s, netCalls := [req] }

/-- `src/service-worker.js` lines 44–71, the fetch handler: dispatch on
`event.request.url.includes('reflections.json')` (line 46). -/
def fetchHandler (network : Network) (s : CacheStorage) (req : String) : FetchResult :=
  if strIncludes req "reflections.json" then
    networkFirst network s req
  else
    cacheFirst network s req

/-- The storage holds no bucket besides (possibly) the current one — the
state the activate handler establishes before any fetch is intercepted. -/
def onlyCurrent : CacheStorage → Bool
  | [] => true
  | [(n, _)] => n == CACHE_NAME
  | _ :: _ :: _ => false

end SW

namespace SW

instance (tr : List Event) : Decidable (deletesBeforeClaim tr) :=
  decidable_of_iff
    (∀ i j : Fin tr.length,
      isDeleteEvent (tr.get i) = true → isClaimEvent (tr.get j) = true → (i : ℕ) < (j : ℕ))
    Iff.rfl

/-- Filtering by a predicate that the search predicate implies does not
change the result of `find?`. -/
theorem find?_filter_of_imp {α : Type} (p q : α → Bool) (l : List α)
    (h : ∀ x, p x = true → q x = true) :
    (l.filter q).find? p = l.find? p := by
  induction l with
  | nil => rfl
  | cons a t ih =>
    cases hq : q a with
    | true =>
      cases hp : p a with
      | true => simp [List.filter_cons, hq, List.find?_cons, hp]
      | false => simp [List.filter_cons, hq, List.find?_cons, hp, ih]
    | false =>
      have hp : p a = false := by
        cases hpa : p a
        · rfl
        · exact absurd (h a hpa) (by simp [hq])
      simp [List.filter_cons, hq, List.find?_cons, hp, ih]

/-- Looking up any key after a `bucketPut`: the written key now maps to the
written response, every other key is unchanged. -/
theorem bucketMatch_bucketPut (b : Bucket) (k u : String) (r : Response) :
    bucketMatch (bucketPut b k r) u = if u = k then some r else bucketMatch b u := by
  unfold bucketMatch bucketPut
  rw [List.find?_append]
  by_cases hu : u = k
  · subst hu
    have h1 : (b.filter (fun e => !(e.1 == u))).find? (fun e => e.1 == u) = none := by
      rw [List.find?_eq_none]
      intro x hx
      rcases List.mem_filter.mp hx with ⟨_, hx2⟩
      simpa using hx2
    simp [h1, List.find?]
  · have h2 : (b.filter (fun e => !(e.1 == k))).find? (fun e => e.1 == u) =
        b.find? (fun e => e.1 == u) := by
      apply find?_filter_of_imp
      intro x hx
      have : x.1 = u := by simpa using hx
      simp [this, hu]
    have hk : (k == u) = false := by
      rw [beq_eq_false_iff_ne]
      exact fun h => hu h.symm
    have h3 : ((k, r) :: ([] : Bucket)).find? (fun e => e.1 == u) = none := by
      simp [List.find?, hk]
    simp [h2, h3, hu]

end SW

namespace SW

/-- `find?` is unchanged by a pointwise-equal predicate. -/
theorem find?_congr_pred {α : Type} (p q : α → Bool) (l : List α) (h : ∀ a, p a = q a) :
    l.find? p = l.find? q := by
  induction l with
  | nil => rfl
  | cons a t ih => simp [List.find?_cons, h a, ih]

/-- `find?` of a key commutes with mapping a key-preserving function. -/
theorem find?_map_keyed (f : String × Bucket → String × Bucket)
    (hf : ∀ b, (f b).1 = b.1) (name : String) :
    ∀ l : CacheStorage,
      (l.map f).find? (fun b => b.1 == name) =
        (l.find? (fun b => b.1 == name)).map f := by
  intro l
  induction l with
  | nil => rfl
  | cons b t ih =>
    rw [List.map_cons]
    cases hb : (b.1 == name) with
    | true =>
      have hfb : ((f b).1 == name) = true := by rw [hf b, hb]
      simp [List.find?_cons, hfb, hb]
    | false =>
      have hfb : ((f b).1 == name) = false := by rw [hf b, hb]
      simp [List.find?_cons, hfb, hb, ih]

/-- A name absent from the keys is not found. -/
theorem find?_key_eq_none (s : CacheStorage) (name : String)
    (hc : ¬ ((cachesKeys s).contains name = true)) :
    s.find? (fun b => b.1 == name) = none := by
  rw [List.find?_eq_none]
  intro x hx hpx
  apply hc
  have hx1 : x.1 = name := by simpa using hpx
  have hmem : name ∈ cachesKeys s := List.mem_map.mpr ⟨x, hx, hx1⟩
  simpa [List.contains, List.elem_iff] using hmem

/-- Reading the bucket of `name` is unchanged by opening `name` (an absent
bucket reads as the empty bucket either way). -/
theorem storageBucket_cachesOpen (s : CacheStorage) (name : String) :
    storageBucket (cachesOpen s name) name = storageBucket s name := by
  unfold cachesOpen
  by_cases hc : (cachesKeys s).contains name = true
  · rw [if_pos hc]
  · rw [if_neg hc]
    have hnone := find?_key_eq_none s name hc
    unfold storageBucket
    rw [List.find?_append, hnone]
    simp [List.find?]

/-- After `caches.open(name)` the bucket of `name` is present, and it reads
as `storageBucket s name`. -/
theorem find?_cachesOpen_eq_some (s : CacheStorage) (name : String) :
    ∃ b₀, (cachesOpen s name).find? (fun b => b.1 == name) = some b₀ ∧
      b₀.1 = name ∧ b₀.2 = storageBucket s name := by
  unfold cachesOpen
  by_cases hc : (cachesKeys s).contains name = true
  · simp only [hc, if_true]
    have hmem : name ∈ cachesKeys s := by
      simpa [List.contains, List.elem_iff] using hc
    rcases List.mem_map.mp hmem with ⟨b, hb, hb1⟩
    have hsome : (s.find? (fun b => b.1 == name)).isSome = true := by
      rw [List.find?_isSome]
      exact ⟨b, hb, by simp [hb1]⟩
    rcases Option.isSome_iff_exists.mp hsome with ⟨b₀, hb₀⟩
    refine ⟨b₀, hb₀, ?_, ?_⟩
    · have := List.find?_some hb₀
      simpa using this
    · simp [storageBucket, hb₀]
  · have hnone := find?_key_eq_none s name hc
    refine ⟨(name, []), ?_, rfl, ?_⟩
    · rw [if_neg hc, List.find?_append, hnone]
      simp [List.find?]
    · simp [storageBucket, hnone]

/-- Reading back the bucket written by `storagePut`: the result is exactly
an overwrite of the bucket read before the write. -/
theorem storageBucket_storagePut (s : CacheStorage) (name key : String) (r : Response) :
    storageBucket (storagePut s name key r) name = bucketPut (storageBucket s name) key r := by
  obtain ⟨b₀, hfind, hb1, hb2⟩ := find?_cachesOpen_eq_some s name
  have hcond : (b₀.1 == name) = true := by simp [hb1]
  have step1 : storageBucket (storagePut s name key r) name =
      ((((cachesOpen s name).map
          (fun b => if b.1 == name then (b.1, bucketPut b.2 key r) else b)).find?
        (fun b => b.1 == name)).map Prod.snd).getD [] := rfl
  rw [step1,
    find?_map_keyed _ (fun b => by by_cases hb : (b.1 == name) = true <;> simp [hb]) name _,
    hfind]
  simp only [Option.map_some', Option.getD_some]
  rw [if_pos hcond]
  exact congrArg (fun b => bucketPut b key r) hb2

end SW

namespace SW

/-- The key just written reads back as the written response. -/
theorem bucketMatch_storagePut_self (s : CacheStorage) (name key : String) (r : Response) :
    bucketMatch (storageBucket (storagePut s name key r) name) key = some r := by
  rw [storageBucket_storagePut, bucketMatch_bucketPut]
  simp

/-- A key present in the bucket stays present across any `storagePut`. -/
theorem bucketMatch_storagePut_isSome (s : CacheStorage) (name key u : String) (r : Response)
    (h : (bucketMatch (storageBucket s name) u).isSome = true) :
    (bucketMatch (storageBucket (storagePut s name key r) name) u).isSome = true := by
  rw [storageBucket_storagePut, bucketMatch_bucketPut]
  by_cases hu : u = key <;> simp [hu, h]

/-- After the batch commit of `putAll`, every committed key — and every key
already present beforehand — is present in the bucket. -/
theorem bucketMatch_putAll_isSome (name : String) :
    ∀ (pairs : List (String × Response)) (s : CacheStorage) (u : String),
      ((∃ r, (u, r) ∈ pairs) ∨ (bucketMatch (storageBucket s name) u).isSome = true) →
      (bucketMatch (storageBucket (putAll name s pairs) name) u).isSome = true := by
  intro pairs
  induction pairs with
  | nil =>
    intro s u h
    rcases h with ⟨r, hr⟩ | h
    · exact absurd hr (List.not_mem_nil _)
    · simpa [putAll] using h
  | cons p rest ih =>
    intro s u h
    obtain ⟨k, r⟩ := p
    show (bucketMatch (storageBucket (putAll name (storagePut s name k r) rest) name) u).isSome = true
    apply ih
    rcases h with ⟨r0, hr0⟩ | h
    · rcases List.mem_cons.mp hr0 with heq | hmem
      · right
        obtain ⟨hu, -⟩ := Prod.mk.inj heq
        subst hu
        rw [bucketMatch_storagePut_self]
        rfl
      · exact Or.inl ⟨r0, hmem⟩
    · exact Or.inr (bucketMatch_storagePut_isSome s name k u r h)

/-- A single failed fetch makes the whole `addAll` fetch phase reject. -/
theorem fetchAll_eq_none (network : Network) (l : List String) (u : String)
    (hu : u ∈ l) (hn : network u = none) : fetchAll network l = none := by
  induction l with
  | nil => exact absurd hu (List.not_mem_nil _)
  | cons a t ih =>
    rcases List.mem_cons.mp hu with rfl | hmem
    · simp [fetchAll, hn]
    · unfold fetchAll
      cases hna : network a with
      | none => rfl
      | some r =>
        rw [ih hmem]
        cases r.ok <;> simp

/-- A successful `addAll` fetch phase yields one response per URL. -/
theorem fetchAll_length (network : Network) :
    ∀ (l : List String) (rs : List Response),
      fetchAll network l = some rs → rs.length = l.length := by
  intro l
  induction l with
  | nil =>
    intro rs h
    simp [fetchAll] at h
    simp [← h]
  | cons a t ih =>
    intro rs h
    unfold fetchAll at h
    cases hna : network a with
    | none => rw [hna] at h; exact absurd h (by simp)
    | some r =>
      rw [hna] at h
      cases hok : r.ok with
      | false => simp [hok] at h
      | true =>
        cases hrec : fetchAll network t with
        | none => simp [hok, hrec] at h
        | some rs0 =>
          simp only [hok, hrec, if_true, Option.map_some', Option.some_inj] at h
          rw [← h]
          simp [ih rs0 hrec]

/-- Every element of the first list of a length-matched zip appears as a
first component of some pair. -/
theorem exists_mem_zip_left {α β : Type} :
    ∀ (l : List α) (rs : List β) (u : α), u ∈ l → l.length = rs.length →
      ∃ r, (u, r) ∈ l.zip rs := by
  intro l
  induction l with
  | nil => intro rs u hu; exact absurd hu (List.not_mem_nil _)
  | cons a t ih =>
    intro rs u hu hlen
    cases rs with
    | nil => exact absurd hlen (by simp)
    | cons b tb =>
      rcases List.mem_cons.mp hu with rfl | hmem
      · exact ⟨b, List.mem_cons_self _ _⟩
      · obtain ⟨r, hr⟩ := ih tb u hmem (by simpa using hlen)
        exact ⟨r, List.mem_cons_of_mem _ hr⟩

/-- Deleting one bucket removes exactly that name from the key set. -/
theorem mem_cachesKeys_cachesDelete (s : CacheStorage) (m n : String) :
    n ∈ cachesKeys (cachesDelete s m) ↔ n ∈ cachesKeys s ∧ n ≠ m := by
  unfold cachesKeys cachesDelete
  constructor
  · intro h
    rcases List.mem_map.mp h with ⟨b, hb, rfl⟩
    rcases List.mem_filter.mp hb with ⟨hbs, hbm⟩
    refine ⟨List.mem_map.mpr ⟨b, hbs, rfl⟩, ?_⟩
    simpa using hbm
  · rintro ⟨h, hnm⟩
    rcases List.mem_map.mp h with ⟨b, hb, rfl⟩
    refine List.mem_map.mpr ⟨b, List.mem_filter.mpr ⟨hb, ?_⟩, rfl⟩
    simpa using hnm

/-- Folding deletions over a list of names removes exactly those names. -/
theorem mem_cachesKeys_foldl_delete (n : String) :
    ∀ (names : List String) (s : CacheStorage),
      n ∈ cachesKeys (names.foldl cachesDelete s) ↔ n ∈ cachesKeys s ∧ n ∉ names := by
  intro names
  induction names with
  | nil => intro s; simp
  | cons m t ih =>
    intro s
    rw [List.foldl_cons, ih, mem_cachesKeys_cachesDelete]
    constructor
    · rintro ⟨⟨hs, hnm⟩, hnt⟩
      exact ⟨hs, by simp [hnm, hnt]⟩
    · rintro ⟨hs, hnmt⟩
      simp only [List.mem_cons, not_or] at hnmt
      exact ⟨⟨hs, hnmt.1⟩, hnmt.2⟩

end SW

namespace SW

/-- Executable character-list matching agrees with the decomposition
characterisation of the pattern as a leading segment. -/
theorem hasPrefixChars_iff (p : List Char) :
    ∀ s : List Char, hasPrefixChars s p = true ↔ ∃ t, s = p ++ t := by
  induction p with
  | nil =>
    intro s
    constructor
    · intro _
      exact ⟨s, rfl⟩
    · intro _
      cases s <;> rfl
  | cons d p ih =>
    intro s
    cases s with
    | nil =>
      constructor
      · intro h
        exact absurd h (by simp [hasPrefixChars])
      · rintro ⟨t, ht⟩
        exact absurd ht (by simp)
    | cons c s0 =>
      rw [show hasPrefixChars (c :: s0) (d :: p) = ((c == d) && hasPrefixChars s0 p) from rfl]
      rw [Bool.and_eq_true, beq_iff_eq, ih s0]
      constructor
      · rintro ⟨rfl, t, rfl⟩
        exact ⟨t, rfl⟩
      · rintro ⟨t, ht⟩
        injection ht with h1 h2
        exact ⟨h1, t, h2⟩

/-- Executable character-list search agrees with the decomposition
characterisation of the pattern as a contiguous segment. -/
theorem hasSubChars_iff (p : List Char) :
    ∀ s : List Char, hasSubChars s p = true ↔ ∃ u t, s = u ++ p ++ t := by
  intro s
  induction s with
  | nil =>
    rw [show hasSubChars [] p = p.isEmpty from rfl]
    constructor
    · intro h
      have hp : p = [] := by simpa using h
      exact ⟨[], [], by simp [hp]⟩
    · rintro ⟨u, t, ht⟩
      rcases List.append_eq_nil.mp ht.symm with ⟨h1, -⟩
      rcases List.append_eq_nil.mp h1 with ⟨-, h2⟩
      simp [h2]
  | cons c s0 ih =>
    rw [show hasSubChars (c :: s0) p = (hasPrefixChars (c :: s0) p || hasSubChars s0 p) from rfl]
    rw [Bool.or_eq_true, hasPrefixChars_iff p (c :: s0), ih]
    constructor
    · rintro (⟨t, ht⟩ | ⟨u, t, ht⟩)
      · exact ⟨[], t, by simp [ht]⟩
      · exact ⟨c :: u, t, by simp [ht]⟩
    · rintro ⟨u, t, ht⟩
      cases u with
      | nil => exact Or.inl ⟨t, by simpa using ht⟩
      | cons x u0 =>
        rw [List.cons_append, List.cons_append] at ht
        injection ht with h1 h2
        exact Or.inr ⟨u0, t, by simpa using h2⟩

/-- JavaScript substring containment, characterised at the string level. -/
theorem strIncludes_iff (url pat : String) :
    strIncludes url pat = true ↔ ∃ pre post : String, url = pre ++ pat ++ post := by
  unfold strIncludes
  rw [hasSubChars_iff]
  constructor
  · rintro ⟨u, t, h⟩
    refine ⟨⟨u⟩, ⟨t⟩, String.ext ?_⟩
    rw [String.data_append, String.data_append]
    exact h
  · rintro ⟨pre, post, h⟩
    refine ⟨pre.data, post.data, ?_⟩
    rw [h, String.data_append, String.data_append]

end SW

namespace SW

/-- C1: after the activate handler completes on a storage in which the
current version's bucket exists (the state a completed install leaves
behind), the set of existing bucket names equals exactly the singleton of
`CACHE_NAME` — every bucket whose name differs from the current version's
name has been deleted, and the current bucket remains. -/
theorem activate_bucket_names (s : CacheStorage) (h : CACHE_NAME ∈ cachesKeys s) :
    ∀ n, n ∈ cachesKeys (activateHandler s).1 ↔ n = CACHE_NAME := by
  intro n
  show n ∈ cachesKeys
      (((cachesKeys s).filter (fun m => !(m == CACHE_NAME))).foldl cachesDelete s) ↔ _
  rw [mem_cachesKeys_foldl_delete]
  constructor
  · rintro ⟨hs, hnf⟩
    by_contra hne
    exact hnf (List.mem_filter.mpr ⟨hs, by simpa using hne⟩)
  · rintro rfl
    refine ⟨h, fun hmem => ?_⟩
    have h2 := (List.mem_filter.mp hmem).2
    simp at h2

/-- Witness for C1 at a concrete two-bucket storage. -/
theorem activate_bucket_names_witness :
    CACHE_NAME ∈ cachesKeys [("old-cache", ([] : Bucket)), (CACHE_NAME, ([] : Bucket))] ∧
    ∀ n, n ∈ cachesKeys
        (activateHandler [("old-cache", ([] : Bucket)), (CACHE_NAME, ([] : Bucket))]).1 ↔
      n = CACHE_NAME :=
  ⟨by decide, activate_bucket_names _ (by decide)⟩

/-- C2: install is all-or-nothing — when the network fetch of any single
manifest entry fails during a fresh install, the install as a whole fails
and the current version's bucket contains no entries. -/
theorem install_all_or_nothing (network : Network) (s : CacheStorage)
    (hfresh : CACHE_NAME ∉ cachesKeys s)
    (u : String) (hu : u ∈ urlsToCache) (hn : network u = none) :
    (installHandler network s).2 = false ∧
    storageBucket (installHandler network s).1 CACHE_NAME = [] := by
  have hfa := fetchAll_eq_none network urlsToCache u hu hn
  have h1 : installHandler network s = (cachesOpen s CACHE_NAME, false) := by
    unfold installHandler
    rw [hfa]
  rw [h1]
  refine ⟨rfl, ?_⟩
  show storageBucket (cachesOpen s CACHE_NAME) CACHE_NAME = []
  rw [storageBucket_cachesOpen]
  unfold storageBucket
  rw [find?_key_eq_none s CACHE_NAME
    (fun hc => hfresh (by simpa [List.contains, List.elem_iff] using hc))]
  rfl

/-- Witness for C2: the network rejects every fetch; install on an empty
storage fails and commits nothing. -/
theorem install_all_or_nothing_witness :
    CACHE_NAME ∉ cachesKeys ([] : CacheStorage) ∧ "/" ∈ urlsToCache ∧
    (installHandler (fun _ => none) []).2 = false ∧
    storageBucket (installHandler (fun _ => none) []).1 CACHE_NAME = [] := by
  refine ⟨by decide, by decide, ?_⟩
  exact install_all_or_nothing (fun _ => none) [] (by decide) "/" (by decide) rfl

/-- C3 counterexample: on a storage with one stale bucket, the activate
handler's trace is `clients.claim()` first and the deletion after it, so
it is false that every deletion of a non-current bucket completes before
`clients.claim()` is invoked. -/
theorem activate_delete_after_claim_cex :
    ¬ deletesBeforeClaim
      (activateHandler [("old-cache", ([] : Bucket)), (CACHE_NAME, ([] : Bucket))]).2 := by
  decide

/-- C3 (amended): in every run of the activate handler, `clients.claim()`
is invoked first — synchronously by the listener body, before the promise
continuation that deletes stale buckets runs — and the actions after it
are exactly the deletions of every bucket whose name differs from the
current version's name. -/
theorem activate_claim_then_deletes (s : CacheStorage) :
    (activateHandler s).2.head? = some Event.claimClients ∧
    ∀ n, Event.deleteBucket n ∈ (activateHandler s).2.tail ↔
      n ∈ cachesKeys s ∧ n ≠ CACHE_NAME := by
  refine ⟨rfl, fun n => ?_⟩
  show Event.deleteBucket n ∈
      (Event.claimClients ::
        ((cachesKeys s).filter (fun m => !(m == CACHE_NAME))).map Event.deleteBucket).tail ↔ _
  rw [List.tail_cons]
  constructor
  · intro h
    rcases List.mem_map.mp h with ⟨m, hm, heq⟩
    rcases List.mem_filter.mp hm with ⟨hms, hmne⟩
    injection heq with hmn
    subst hmn
    exact ⟨hms, by simpa using hmne⟩
  · rintro ⟨hs, hne⟩
    exact List.mem_map.mpr ⟨n, List.mem_filter.mpr ⟨hs, by simpa using hne⟩, rfl⟩

/-- C9: after a successful install, every manifest entry's key yields a
non-empty response on lookup in the current version's bucket. -/
theorem install_populates_manifest (network : Network) (s : CacheStorage)
    (hok : (installHandler network s).2 = true) :
    ∀ u ∈ urlsToCache,
      (bucketMatch (storageBucket (installHandler network s).1 CACHE_NAME) u).isSome = true := by
  intro u hu
  cases hfa : fetchAll network urlsToCache with
  | none =>
    exfalso
    unfold installHandler at hok
    rw [hfa] at hok
    exact Bool.false_ne_true hok
  | some rs =>
    have h1 : (installHandler network s).1 =
        putAll CACHE_NAME (cachesOpen s CACHE_NAME) (urlsToCache.zip rs) := by
      unfold installHandler
      rw [hfa]
    rw [h1]
    apply bucketMatch_putAll_isSome
    exact Or.inl
      (exists_mem_zip_left urlsToCache rs u hu (fetchAll_length network urlsToCache rs hfa).symm)

/-- Witness for C9: a network that answers every URL with a 200 response;
install on the empty storage succeeds and every manifest key is cached. -/
theorem install_populates_manifest_witness :
    (installHandler (fun u => some ⟨200, u⟩) []).2 = true ∧
    ∀ u ∈ urlsToCache,
      (bucketMatch
        (storageBucket (installHandler (fun u => some ⟨200, u⟩) []).1 CACHE_NAME) u).isSome =
        true :=
  ⟨by decide, install_populates_manifest _ [] (by decide)⟩

end SW

namespace SW

/-- The two shapes a storage with only the current bucket can take. -/
theorem onlyCurrent_cases (s : CacheStorage) (h : onlyCurrent s = true) :
    s = [] ∨ ∃ b, s = [(CACHE_NAME, b)] := by
  cases s with
  | nil => exact Or.inl rfl
  | cons hd tl =>
    cases tl with
    | nil =>
      obtain ⟨n, b⟩ := hd
      have hn : n = CACHE_NAME := by simpa [onlyCurrent] using h
      exact Or.inr ⟨b, by rw [hn]⟩
    | cons hd2 tl2 => simp [onlyCurrent] at h

/-- When only the current bucket exists, the global `caches.match` is the
lookup in the current bucket. -/
theorem cachesMatch_onlyCurrent (s : CacheStorage) (h : onlyCurrent s = true) (key : String) :
    cachesMatch s key = bucketMatch (storageBucket s CACHE_NAME) key := by
  rcases onlyCurrent_cases s h with rfl | ⟨b, rfl⟩
  · rfl
  · have hsb : storageBucket [(CACHE_NAME, b)] CACHE_NAME = b := by
      simp [storageBucket, List.find?]
    rw [hsb]
    unfold cachesMatch
    rw [List.findSome?_cons]
    cases bucketMatch b key <;> simp [List.findSome?]

/-- Writing into the current bucket preserves the only-current shape. -/
theorem onlyCurrent_storagePut (s : CacheStorage) (key : String) (r : Response)
    (h : onlyCurrent s = true) :
    onlyCurrent (storagePut s CACHE_NAME key r) = true := by
  rcases onlyCurrent_cases s h with rfl | ⟨b, rfl⟩
  · simp [storagePut, cachesOpen, cachesKeys, onlyCurrent, List.contains]
  · simp [storagePut, cachesOpen, cachesKeys, onlyCurrent, List.contains]

/-- C4: a fetch of the dynamic resource whose network fetch succeeds —
the handler returns the network response, stores an observably identical
copy in the current bucket under the request's key, and a subsequent cache
lookup for that key returns the newly stored value. -/
theorem dynamic_success_returns_and_caches (network : Network) (s : CacheStorage)
    (req : String) (r : Response)
    (hm : strIncludes req "reflections.json" = true)
    (hn : network req = some r)
    (hs : onlyCurrent s = true) :
    (fetchHandler network s req).response = some r ∧
    bucketMatch (storageBucket (fetchHandler network s req).storage CACHE_NAME) req = some r ∧
    cachesMatch (fetchHandler network s req).storage req = some r := by
  have hfr : fetchHandler network s req =
      { response := some r
        storage := storagePut s CACHE_NAME req r
        netCalls := [req] } := by
    unfold fetchHandler
    rw [if_pos hm]
    unfold networkFirst
    rw [hn]
  rw [hfr]
  refine ⟨rfl, bucketMatch_storagePut_self .., ?_⟩
  rw [cachesMatch_onlyCurrent _ (onlyCurrent_storagePut s req r hs)]
  exact bucketMatch_storagePut_self ..

/-- Witness for C4: a 200 network response to the dynamic resource
overwrites the previously cached value and is what a new lookup returns. -/
theorem dynamic_success_witness :
    strIncludes "/backend/reflections.json" "reflections.json" = true ∧
    ((fun _ => some ⟨200, "fresh"⟩ : Network) "/backend/reflections.json" =
      some ⟨200, "fresh"⟩) ∧
    onlyCurrent [(CACHE_NAME, [("/backend/reflections.json", ⟨200, "stale"⟩)])] = true ∧
    ((fetchHandler (fun _ => some ⟨200, "fresh"⟩)
        [(CACHE_NAME, [("/backend/reflections.json", ⟨200, "stale"⟩)])]
        "/backend/reflections.json").response = some ⟨200, "fresh"⟩ ∧
      bucketMatch
        (storageBucket
          (fetchHandler (fun _ => some ⟨200, "fresh"⟩)
            [(CACHE_NAME, [("/backend/reflections.json", ⟨200, "stale"⟩)])]
            "/backend/reflections.json").storage CACHE_NAME)
        "/backend/reflections.json" = some ⟨200, "fresh"⟩ ∧
      cachesMatch
        (fetchHandler (fun _ => some ⟨200, "fresh"⟩)
          [(CACHE_NAME, [("/backend/reflections.json", ⟨200, "stale"⟩)])]
          "/backend/reflections.json").storage "/backend/reflections.json" =
        some ⟨200, "fresh"⟩) :=
  ⟨by decide, rfl, by decide,
    dynamic_success_returns_and_caches _ _ _ _ (by decide) rfl (by decide)⟩

/-- C5: a fetch of the dynamic resource whose network fetch fails — the
handler returns exactly what the current bucket holds for the request's
key (a prior cached value if one exists, the absence otherwise), and the
storage is unchanged. -/
theorem dynamic_failure_falls_back (network : Network) (s : CacheStorage) (req : String)
    (hm : strIncludes req "reflections.json" = true)
    (hn : network req = none)
    (hs : onlyCurrent s = true) :
    (fetchHandler network s req).response = bucketMatch (storageBucket s CACHE_NAME) req ∧
    (fetchHandler network s req).storage = s := by
  have hfr : fetchHandler network s req =
      { response := cachesMatch s req, storage := s, netCalls := [req] } := by
    unfold fetchHandler
    rw [if_pos hm]
    unfold networkFirst
    rw [hn]
  rw [hfr]
  exact ⟨cachesMatch_onlyCurrent s hs req, rfl⟩

/-- Witness for C5, both cases: with a prior cached value the handler
returns it; with an empty bucket it returns the absence. -/
theorem dynamic_failure_witness :
    ((fetchHandler (fun _ => none)
        [(CACHE_NAME, [("/backend/reflections.json", ⟨200, "kept"⟩)])]
        "/backend/reflections.json").response = some ⟨200, "kept"⟩) ∧
    ((fetchHandler (fun _ => none) [(CACHE_NAME, [])]
        "/backend/reflections.json").response = none) := by
  constructor
  · have h := dynamic_failure_falls_back (fun _ => none)
      [(CACHE_NAME, [("/backend/reflections.json", ⟨200, "kept"⟩)])]
      "/backend/reflections.json" (by decide) rfl (by decide)
    rw [h.1]
    decide
  · have h := dynamic_failure_falls_back (fun _ => none) [(CACHE_NAME, [])]
      "/backend/reflections.json" (by decide) rfl (by decide)
    rw [h.1]
    decide

/-- C6: strategy dispatch is a URL substring test — a request whose URL
contains the marker substring `reflections.json` is handled by the
network-first strategy, and every other request by the cache-first
strategy. -/
theorem fetch_dispatch (network : Network) (s : CacheStorage) (req : String) :
    ((∃ pre post : String, req = pre ++ "reflections.json" ++ post) →
      fetchHandler network s req = networkFirst network s req) ∧
    ((¬ ∃ pre post : String, req = pre ++ "reflections.json" ++ post) →
      fetchHandler network s req = cacheFirst network s req) := by
  constructor
  · intro h
    have hm : strIncludes req "reflections.json" = true := (strIncludes_iff req _).mpr h
    unfold fetchHandler
    rw [if_pos hm]
  · intro h
    have hm : strIncludes req "reflections.json" = false := by
      cases hmc : strIncludes req "reflections.json"
      · rfl
      · exact absurd ((strIncludes_iff req _).mp hmc) h
    unfold fetchHandler
    rw [if_neg (by simp [hm])]

/-- Witness for C6: a URL containing the marker goes network-first, one
without it goes cache-first. -/
theorem fetch_dispatch_witness :
    fetchHandler (fun _ => none) [] "/backend/reflections.json?t=1" =
      networkFirst (fun _ => none) [] "/backend/reflections.json?t=1" ∧
    fetchHandler (fun _ => none) [] "/css/style.css" =
      cacheFirst (fun _ => none) [] "/css/style.css" :=
  ⟨(fetch_dispatch _ [] _).1 ⟨"/backend/", "?t=1", by decide⟩,
    (fetch_dispatch _ [] _).2
      (fun hex => absurd ((strIncludes_iff _ _).mpr hex) (by decide))⟩

end SW

namespace SW

/-- C7: a static-asset request (no marker in the URL) whose key is cached
is answered from the cache with no network call and no storage change, and
the whole outcome is identical under every possible network behaviour. -/
theorem static_cached_hit_no_network (s : CacheStorage) (req : String) (r : Response)
    (hm : strIncludes req "reflections.json" = false)
    (hc : cachesMatch s req = some r) :
    (∀ network : Network,
      (fetchHandler network s req).response = some r ∧
      (fetchHandler network s req).storage = s ∧
      (fetchHandler network s req).netCalls = []) ∧
    (∀ net1 net2 : Network, fetchHandler net1 s req = fetchHandler net2 s req) := by
  have hfr : ∀ network : Network, fetchHandler network s req =
      { response := some r, storage := s, netCalls := [] } := by
    intro network
    unfold fetchHandler
    rw [if_neg (by simp [hm])]
    unfold cacheFirst
    rw [hc]
  refine ⟨fun network => ?_, fun n1 n2 => by rw [hfr n1, hfr n2]⟩
  rw [hfr network]
  exact ⟨rfl, rfl, rfl⟩

/-- Witness for C7 at a concrete cached static asset. -/
theorem static_cached_hit_witness :
    strIncludes "/css/style.css" "reflections.json" = false ∧
    cachesMatch [(CACHE_NAME, [("/css/style.css", ⟨200, "css"⟩)])] "/css/style.css" =
      some ⟨200, "css"⟩ ∧
    (∀ network : Network,
      (fetchHandler network [(CACHE_NAME, [("/css/style.css", ⟨200, "css"⟩)])]
        "/css/style.css").response = some ⟨200, "css"⟩ ∧
      (fetchHandler network [(CACHE_NAME, [("/css/style.css", ⟨200, "css"⟩)])]
        "/css/style.css").storage = [(CACHE_NAME, [("/css/style.css", ⟨200, "css"⟩)])] ∧
      (fetchHandler network [(CACHE_NAME, [("/css/style.css", ⟨200, "css"⟩)])]
        "/css/style.css").netCalls = []) ∧
    (∀ net1 net2 : Network,
      fetchHandler net1 [(CACHE_NAME, [("/css/style.css", ⟨200, "css"⟩)])] "/css/style.css" =
      fetchHandler net2 [(CACHE_NAME, [("/css/style.css", ⟨200, "css"⟩)])] "/css/style.css") := by
  refine ⟨by decide, by decide, ?_⟩
  exact static_cached_hit_no_network _ _ _ (by decide) (by decide)

/-- C8: a static-asset request whose key is absent from the cache issues
exactly one network call, returns its result (including the absence on
network failure), and leaves the storage unchanged — this path never
writes into the bucket. -/
theorem static_miss_network_no_write (s : CacheStorage) (req : String)
    (hm : strIncludes req "reflections.json" = false)
    (hc : cachesMatch s req = none) :
    ∀ network : Network,
      (fetchHandler network s req).response = network req ∧
      (fetchHandler network s req).storage = s ∧
      (fetchHandler network s req).netCalls = [req] := by
  intro network
  have hfr : fetchHandler network s req =
      { response := network req, storage := s, netCalls := [req] } := by
    unfold fetchHandler
    rw [if_neg (by simp [hm])]
    unfold cacheFirst
    rw [hc]
  rw [hfr]
  exact ⟨rfl, rfl, rfl⟩

/-- Witness for C8 at a concrete uncached static asset. -/
theorem static_miss_witness :
    strIncludes "/images/logo.png" "reflections.json" = false ∧
    cachesMatch [(CACHE_NAME, [("/css/style.css", ⟨200, "css"⟩)])] "/images/logo.png" = none ∧
    ∀ network : Network,
      (fetchHandler network [(CACHE_NAME, [("/css/style.css", ⟨200, "css"⟩)])]
        "/images/logo.png").response = network "/images/logo.png" ∧
      (fetchHandler network [(CACHE_NAME, [("/css/style.css", ⟨200, "css"⟩)])]
        "/images/logo.png").storage = [(CACHE_NAME, [("/css/style.css", ⟨200, "css"⟩)])] ∧
      (fetchHandler network [(CACHE_NAME, [("/css/style.css", ⟨200, "css"⟩)])]
        "/images/logo.png").netCalls = ["/images/logo.png"] := by
  refine ⟨by decide, by decide, ?_⟩
  exact static_miss_network_no_write _ _ (by decide) (by decide)

/-- C10: on the dynamic-resource path every network fetch that resolves
with a response is treated as success, whatever its status — the handler
returns it and writes it into the bucket under the request's key,
overwriting the previously cached value; no status check guards the
write. -/
theorem dynamic_any_status_cached (network : Network) (s : CacheStorage)
    (req : String) (r v : Response)
    (hm : strIncludes req "reflections.json" = true)
    (hn : network req = some r)
    (_hv : bucketMatch (storageBucket s CACHE_NAME) req = some v) :
    (fetchHandler network s req).response = some r ∧
    bucketMatch (storageBucket (fetchHandler network s req).storage CACHE_NAME) req =
      some r := by
  have hfr : fetchHandler network s req =
      { response := some r
        storage := storagePut s CACHE_NAME req r
        netCalls := [req] } := by
    unfold fetchHandler
    rw [if_pos hm]
    unfold networkFirst
    rw [hn]
  rw [hfr]
  exact ⟨rfl, bucketMatch_storagePut_self ..⟩

/-- Witness for C10: a 404 response replaces a previously cached 200
response for the dynamic resource. -/
theorem dynamic_any_status_witness :
    strIncludes "/backend/reflections.json" "reflections.json" = true ∧
    ((fun _ => some ⟨404, "Not Found"⟩ : Network) "/backend/reflections.json" =
      some ⟨404, "Not Found"⟩) ∧
    bucketMatch
      (storageBucket [(CACHE_NAME, [("/backend/reflections.json", ⟨200, "good"⟩)])] CACHE_NAME)
      "/backend/reflections.json" = some ⟨200, "good"⟩ ∧
    ((fetchHandler (fun _ => some ⟨404, "Not Found"⟩)
        [(CACHE_NAME, [("/backend/reflections.json", ⟨200, "good"⟩)])]
        "/backend/reflections.json").response = some ⟨404, "Not Found"⟩ ∧
      bucketMatch
        (storageBucket
          (fetchHandler (fun _ => some ⟨404, "Not Found"⟩)
            [(CACHE_NAME, [("/backend/reflections.json", ⟨200, "good"⟩)])]
            "/backend/reflections.json").storage CACHE_NAME)
        "/backend/reflections.json" = some ⟨404, "Not Found"⟩) := by
  refine ⟨by decide, rfl, by decide, ?_⟩
  exact dynamic_any_status_cached _ _ _ _ ⟨200, "good"⟩ (by decide) rfl (by decide)

end SW
